import Mathlib

/-!
# Verification of the alloy pubsub subscription core

Shallow embedding of `crates/pubsub/src/managers/sub.rs` (the
`SubscriptionManager` registry) and `crates/pubsub/src/sub.rs` (the untyped
`RawSubscription` and typed `Subscription<T>` consumer handles), together with
the collaborating pieces that live outside the provided sources
(`ActiveSubscription`, `SerializedRequest::params_hash`, and the tokio
broadcast channel), which are modelled from the specification.

Machine integers: `B256` (the 32-byte content hash) is modelled by the
canonical parameter bytes themselves (`List Nat`), `U256` server identities by
`Nat`; both are used purely as opaque decidable-equality identities by the
registry, so no arithmetic overflow is involved. Raw JSON payloads are opaque
values (`Nat`). The shared heap of broadcast channels, which Rust keeps behind
`Arc` inside each `broadcast::Sender`/`Receiver`, is made explicit as a list of
channel states indexed by channel id; operations that mint receivers return an
updated heap. Each registry operation is one atomic step, matching the
single-writer discipline of the concurrency model (§5 of the design).
-/

namespace Alloy

/-- 32-byte hash values. Modelled by the canonical byte content they are
derived from (see `SerializedRequest.params_hash`). -/
abbrev B256 := List Nat

/-- 256-bit server-assigned subscription identities, used only for equality. -/
abbrev U256 := Nat

/-- An opaque raw (un-decoded) JSON payload (`Box<RawValue>` in the source). -/
abbrev RawVal := Nat

/-- Modelled from the spec: a serialized subscribe request, reduced to the
canonical byte content of its parameters (§6: "opaque bytes whose canonical
content hash yields the Local Identity"). -/
structure SerializedRequest where
  params : List Nat
  deriving DecidableEq, Repr

/-- Modelled from the spec: the content hash deriving the Local Identity from
the canonical parameter bytes (§3: "deterministically derived from the
canonical byte content of the subscribe request's parameters"). The model uses
a perfect hash — the bytes themselves — which satisfies the only property the
spec requires of it: byte-identical parameters give identical hashes. -/
def SerializedRequest.params_hash (r : SerializedRequest) : B256 :=
  r.params

/-! ## The broadcast channel (modelled from spec §4.1 / tokio `broadcast`)

One write end, many read ends. `history` records every value ever published
(oldest first); a read end is a cursor counting how many history entries it
has consumed. Only the last `channelCapacity` entries are retained, so a
cursor that falls behind the oldest retained entry observes `lagged`. -/

/-- Buffer capacity of the broadcast channel created per subscription. -/
def channelCapacity : Nat := 16

/-- State of one broadcast channel: full publication history, number of live
read ends, and whether the write end has been dropped. -/
structure BChannel where
  history : List RawVal
  receivers : Nat
  closed : Bool
  deriving DecidableEq, Repr

/-- Index of the oldest value still retained in the ring buffer. -/
def BChannel.oldest (ch : BChannel) : Nat :=
  ch.history.length - channelCapacity

/-- `broadcast::Sender::send`: appends when at least one read end is live;
with zero read ends the value is discarded with no error (spec §4.2). -/
def BChannel.send (ch : BChannel) (v : RawVal) : BChannel :=
  if 0 < ch.receivers then { ch with history := ch.history ++ [v] } else ch

/-- `broadcast::Sender::subscribe` / `Receiver::resubscribe`: a new read end
whose cursor starts at the writer's current position (spec §4.1: no
historical replay). Returns the updated channel and the new cursor. -/
def BChannel.resubscribe (ch : BChannel) : BChannel × Nat :=
  ({ ch with receivers := ch.receivers + 1 }, ch.history.length)

/-- Error outcomes of a non-blocking read (`broadcast::error::TryRecvError`);
the blocking/suspending reads surface the subset without `empty`. -/
inductive TryRecvError where
  | empty
  | closed
  | lagged (n : Nat)
  deriving DecidableEq, Repr

/-- One read step of a cursor on a channel (`broadcast::Receiver::try_recv`):
a lagging cursor is repositioned to the oldest retained value and reports how
many values it skipped; otherwise the next value is consumed; a caught-up
cursor reports `closed` when the write end is gone, else `empty`. Returns the
outcome and the new cursor. -/
def tryRecvCh (ch : BChannel) (cursor : Nat) : Except TryRecvError RawVal × Nat :=
  if cursor < ch.oldest then
    (.error (.lagged (ch.oldest - cursor)), ch.oldest)
  else if h : cursor < ch.history.length then
    (.ok (ch.history.get ⟨cursor, h⟩), cursor + 1)
  else if ch.closed then
    (.error .closed, cursor)
  else
    (.error .empty, cursor)

/-! ## Active subscription records and raw consumer handles -/

/-- Modelled from the spec (§4.2, file `managers/active_sub.rs` not under the
provided sources): pairs the Local Identity and the kept request with the
channel write end, here the id `tx` of a channel in the shared heap. -/
structure ActiveSubscription where
  local_id : B256
  request : SerializedRequest
  tx : Nat
  deriving DecidableEq, Repr

/-- The shared heap of broadcast channels, indexed by channel id. -/
abbrev ChanHeap := List BChannel

/-- An untyped consumer handle (`RawSubscription` in `sub.rs`): a channel read
end — channel id plus cursor — and a copy of the Local Identity. -/
structure RawSubscription where
  chan : Nat
  cursor : Nat
  local_id : B256
  deriving DecidableEq, Repr

/-- `RawSubscription::same_channel`: whether two handles share one broadcast
channel (compares the shared channel, here its heap id). -/
def RawSubscription.same_channel (a b : RawSubscription) : Bool :=
  decide (a.chan = b.chan)

/-- `RawSubscription::resubscribe`: a sibling handle on the same channel
starting from the current tail, with the same local id. -/
def RawSubscription.resubscribe (h : RawSubscription) (heap : ChanHeap) :
    RawSubscription × ChanHeap :=
  match heap.get? h.chan with
  | none => (h, heap)
  | some ch =>
    let (ch', c) := ch.resubscribe
    ({ chan := h.chan, cursor := c, local_id := h.local_id }, heap.set h.chan ch')

/-- Modelled from the spec (§4.2): `ActiveSubscription::new` — creates a fresh
broadcast channel (capacity `channelCapacity`, no read end yet) and computes
the Local Identity as the request's canonical content hash. -/
def ActiveSubscription.new (request : SerializedRequest) (heap : ChanHeap) :
    ActiveSubscription × ChanHeap :=
  ({ local_id := request.params_hash, request := request, tx := heap.length },
   heap ++ [{ history := [], receivers := 0, closed := false }])

/-- Modelled from the spec (§4.2): `ActiveSubscription::subscribe` — mint a
new untyped consumer handle bound to this record's channel. -/
def ActiveSubscription.subscribe (a : ActiveSubscription) (heap : ChanHeap) :
    RawSubscription × ChanHeap :=
  match heap.get? a.tx with
  | none => ({ chan := a.tx, cursor := 0, local_id := a.local_id }, heap)
  | some ch =>
    let (ch', c) := ch.resubscribe
    ({ chan := a.tx, cursor := c, local_id := a.local_id }, heap.set a.tx ch')

/-- Modelled from the spec (§4.2): `ActiveSubscription::notify` — publish a
value into the record's channel; with zero read ends it is discarded. -/
def ActiveSubscription.notify (a : ActiveSubscription) (heap : ChanHeap)
    (v : RawVal) : ChanHeap :=
  match heap.get? a.tx with
  | none => heap
  | some ch => heap.set a.tx (ch.send v)

/-- Marks a channel closed: dropping an `ActiveSubscription` drops its
`broadcast::Sender`, which closes the channel for every read end (§3). -/
def closeChan (heap : ChanHeap) (i : Nat) : ChanHeap :=
  match heap.get? i with
  | none => heap
  | some ch => heap.set i { ch with closed := true }

/-! ## Bidirectional maps (`bimap::BiBTreeMap`)

Modelled as association lists. `BiBTreeMap::insert` is overwriting: it first
removes any pair sharing the left value and any pair sharing the right value.
For `local_to_sub : BiBTreeMap<B256, ActiveSubscription>` the right-hand
ordering compares records by their `local_id`. -/

/-- `BiBTreeMap<B256, U256>::insert` (overwriting on both sides). -/
def bimapInsert (m : List (B256 × U256)) (l : B256) (r : U256) :
    List (B256 × U256) :=
  m.filter (fun p => decide (p.1 ≠ l ∧ p.2 ≠ r)) ++ [(l, r)]

/-- `BiBTreeMap<B256, ActiveSubscription>::insert`; records compare by their
`local_id` on the right side. -/
def subInsert (m : List (B256 × ActiveSubscription)) (l : B256)
    (a : ActiveSubscription) : List (B256 × ActiveSubscription) :=
  m.filter (fun p => decide (p.1 ≠ l ∧ p.2.local_id ≠ a.local_id)) ++ [(l, a)]

/-- `get_by_left` on the record map. -/
def lookupSub (m : List (B256 × ActiveSubscription)) (k : B256) :
    Option ActiveSubscription :=
  (m.find? (fun p => decide (p.1 = k))).map Prod.snd

/-- `contains_left` on the record map. -/
def containsLeft (m : List (B256 × ActiveSubscription)) (k : B256) : Bool :=
  m.any (fun p => decide (p.1 = k))

/-- `remove_by_left` on the record map: the removed record, and the map
without the pair keyed `k`. -/
def removeByLeftSub (m : List (B256 × ActiveSubscription)) (k : B256) :
    Option ActiveSubscription × List (B256 × ActiveSubscription) :=
  (lookupSub m k, m.filter (fun p => decide (p.1 ≠ k)))

/-- `get_by_right` on the server-id map. -/
def lookupByRight (m : List (B256 × U256)) (s : U256) : Option B256 :=
  (m.find? (fun p => decide (p.2 = s))).map Prod.fst

/-- `remove_by_left` on the server-id map (the map part). -/
def removeByLeftServer (m : List (B256 × U256)) (k : B256) :
    List (B256 × U256) :=
  m.filter (fun p => decide (p.1 ≠ k))

/-! ## The subscription registry (`managers/sub.rs`) -/

/-- A decoded notification frame (`EthNotification`): the server-assigned
subscription identity and the raw payload. -/
structure EthNotification where
  subscription : U256
  result : RawVal
  deriving DecidableEq, Repr

/-- The `SubscriptionManager`: the two bidirectional maps of the source plus
the explicit heap of broadcast channel states the records' write ends and the
handles' read ends share. -/
structure SubscriptionManager where
  local_to_sub : List (B256 × ActiveSubscription)
  local_to_server : List (B256 × U256)
  channels : ChanHeap
  deriving DecidableEq, Repr

namespace SubscriptionManager

/-- `SubscriptionManager::default()`: both maps empty, no channel. -/
def empty : SubscriptionManager :=
  { local_to_sub := [], local_to_server := [], channels := [] }

/-- `SubscriptionManager::insert`: create the record and a first handle, then
establish both mappings. -/
def insert (m : SubscriptionManager) (request : SerializedRequest)
    (server_id : U256) : RawSubscription × SubscriptionManager :=
  let (active, heap1) := ActiveSubscription.new request m.channels
  let (sub, heap2) := active.subscribe heap1
  let local_id := active.local_id
  (sub,
   { local_to_sub := subInsert m.local_to_sub local_id active,
     local_to_server := bimapInsert m.local_to_server local_id server_id,
     channels := heap2 })

/-- `SubscriptionManager::local_id_for`: reverse lookup of the Local Identity
currently mapped to a server id. -/
def local_id_for (m : SubscriptionManager) (server_id : U256) : Option B256 :=
  lookupByRight m.local_to_server server_id

/-- `SubscriptionManager::drop_server_ids`: clear the server-id map only. -/
def drop_server_ids (m : SubscriptionManager) : SubscriptionManager :=
  { m with local_to_server := [] }

/-- `SubscriptionManager::change_server_id`: rotate the server id mapped to a
local id (an overwriting bimap insert). -/
def change_server_id (m : SubscriptionManager) (local_id : B256)
    (server_id : U256) : SubscriptionManager :=
  { m with local_to_server := bimapInsert m.local_to_server local_id server_id }

/-- `SubscriptionManager::get_subscription`: mint another handle onto an
existing record (the receiver count of its channel grows in the heap). -/
def get_subscription (m : SubscriptionManager) (local_id : B256) :
    Option (RawSubscription × SubscriptionManager) :=
  (lookupSub m.local_to_sub local_id).map (fun active =>
    let (sub, heap') := active.subscribe m.channels
    (sub, { m with channels := heap' }))

/-- `SubscriptionManager::upsert`: compute the Local Identity from the
request; rotate the server id and mint a handle on the existing record when
one exists, otherwise insert a fresh record. `none` models the
`.expect("checked existence")` panic on the dedup path. -/
def upsert (m : SubscriptionManager) (request : SerializedRequest)
    (server_id : U256) : Option (RawSubscription × SubscriptionManager) :=
  let local_id := request.params_hash
  if containsLeft m.local_to_sub local_id then
    (m.change_server_id local_id server_id).get_subscription local_id
  else
    some (m.insert request server_id)

/-- `SubscriptionManager::remove_sub`: delete the pair keyed `local_id` from
both maps; the removed record is dropped, which drops its channel write end
and closes the channel. -/
def remove_sub (m : SubscriptionManager) (local_id : B256) :
    SubscriptionManager :=
  match removeByLeftSub m.local_to_sub local_id with
  | (none, rest) =>
    { m with local_to_sub := rest,
             local_to_server := removeByLeftServer m.local_to_server local_id }
  | (some active, rest) =>
    { local_to_sub := rest,
      local_to_server := removeByLeftServer m.local_to_server local_id,
      channels := closeChan m.channels active.tx }

/-- `SubscriptionManager::notify`: resolve the frame's server id; when known,
take the record out of the map, publish into its channel, and put it back;
otherwise drop the frame silently. -/
def notify (m : SubscriptionManager) (n : EthNotification) :
    SubscriptionManager :=
  match m.local_id_for n.subscription with
  | none => m
  | some local_id =>
    match removeByLeftSub m.local_to_sub local_id with
    | (none, _) => m
    | (some active, rest) =>
      { m with local_to_sub := subInsert rest local_id active,
               channels := active.notify m.channels n.result }

end SubscriptionManager

/-! ## Typed consumer handles (`Subscription<T>` in `sub.rs`)

Decoding (`serde_json::from_str::<T>`) is modelled by a function
`decode : RawVal → Option T`; the underlying channel read of one call is an
`Except E RawVal` where `E` is instantiated with `TryRecvError` for `try_recv`
and with its `closed`/`lagged` subset for `recv`/`blocking_recv`. -/

/-- An item in a typed subscription (`SubscriptionItem<T>`): the expected
type, or the preserved raw payload of some other shape. -/
inductive SubscriptionItem (T : Type) where
  | item (t : T)
  | other (v : RawVal)
  deriving DecidableEq, Repr

/-- The `From<Box<RawValue>> for SubscriptionItem<T>` conversion: `item` when
the payload decodes as `T`, else `other` carrying the payload unmodified. -/
def SubscriptionItem.fromRaw (decode : RawVal → Option T) (v : RawVal) :
    SubscriptionItem T :=
  match decode v with
  | some t => .item t
  | none => .other v

/-- `Subscription::recv_any` and variants, applied to one underlying channel
outcome: errors pass through, values are tagged by the conversion. -/
def recvAnyStep (decode : RawVal → Option T) (o : Except E RawVal) :
    Except E (SubscriptionItem T) :=
  o.map (SubscriptionItem.fromRaw decode)

/-- The strict receive loop shared by `Subscription::{recv, blocking_recv,
try_recv}`: repeatedly take the next underlying outcome, return the first
decoded item, skip `other` payloads, surface any channel error at once.
Evaluated against the sequence of outcomes the underlying receiver yields;
`none` when that sequence is exhausted with the loop still running. -/
def recvStrict (decode : RawVal → Option T) :
    List (Except E RawVal) → Option (Except E T)
  | [] => none
  | o :: rest =>
    match recvAnyStep decode o with
    | .error e => some (.error e)
    | .ok (.item t) => some (.ok t)
    | .ok (.other _) => recvStrict decode rest

/-! ## Read traces of a single handle on one channel (for the no-replay
property of `resubscribe`) -/

/-- Events interleaving publishes by the write end with reads by one handle. -/
inductive ChEvent where
  | pub (v : RawVal)
  | read
  deriving DecidableEq, Repr

/-- One handle reading a channel: the channel state, the handle's cursor, and
the history indices of the values the handle has received so far. -/
structure ReaderTrace where
  ch : BChannel
  cursor : Nat
  receivedIdx : List Nat
  deriving DecidableEq, Repr

/-- One trace step: a publish sends into the channel; a read performs
`tryRecvCh`, recording the consumed history index on success. -/
def chStep (s : ReaderTrace) : ChEvent → ReaderTrace
  | .pub v => { s with ch := s.ch.send v }
  | .read =>
    match tryRecvCh s.ch s.cursor with
    | (.ok _, c) => { s with cursor := c, receivedIdx := s.receivedIdx ++ [s.cursor] }
    | (.error _, c) => { s with cursor := c }

/-- Run a whole event sequence. -/
def chRun (s : ReaderTrace) (events : List ChEvent) : ReaderTrace :=
  events.foldl chStep s

/-- The trace state of a fresh handle minted by `resubscribe` on channel
`ch`: its cursor starts at the writer's current position. -/
def resubReader (ch : BChannel) : ReaderTrace :=
  { ch := ch.resubscribe.1, cursor := ch.resubscribe.2, receivedIdx := [] }

/-! ## Concrete fixtures used to instantiate the theorems -/

/-- The record of `sampleManager`. -/
def sampleRecord : ActiveSubscription :=
  { local_id := [1], request := { params := [1] }, tx := 0 }

/-- A one-entry registry state: request bytes `[1]`, server id `5`, one
buffered value `9`, one live handle. It is the state reached from the empty
registry by `upsert ⟨[1]⟩ 5` followed by `notify ⟨5, 9⟩`. -/
def sampleManager : SubscriptionManager :=
  { local_to_sub := [([1], sampleRecord)],
    local_to_server := [([1], 5)],
    channels := [{ history := [9], receivers := 1, closed := false }] }

/-- The state reached from the empty registry by `upsert ⟨[1]⟩ 5` alone:
like `sampleManager` but with nothing published yet. -/
def sampleManagerMid : SubscriptionManager :=
  { local_to_sub := [([1], sampleRecord)],
    local_to_server := [([1], 5)],
    channels := [{ history := [], receivers := 1, closed := false }] }

/-- A sample payload decoder for the typed-handle theorems: even payloads
decode, odd ones do not. -/
def evenDecoder (v : RawVal) : Option Nat :=
  if v % 2 = 0 then some v else none

/-! ## Registry invariants and reachable states -/

/-- The registry invariants (I1–I3 of the design): every record is keyed by
its own Local Identity, record keys are unique, the local-to-server mapping is
a partial bijection (unique on both sides), and every Local Identity holding a
server id also holds a record. -/
def WF (m : SubscriptionManager) : Prop :=
  (∀ p ∈ m.local_to_sub, p.2.local_id = p.1) ∧
  (m.local_to_sub.map Prod.fst).Nodup ∧
  (m.local_to_server.map Prod.fst).Nodup ∧
  (m.local_to_server.map Prod.snd).Nodup ∧
  (∀ p ∈ m.local_to_server, containsLeft m.local_to_sub p.1 = true)

/-- Registry states reachable from the empty registry by the four mutating
operations (an `upsert` step is one that returns `some`; they all do). -/
inductive Reachable : SubscriptionManager → Prop where
  | empty : Reachable SubscriptionManager.empty
  | upsert {m m' : SubscriptionManager} {r : SerializedRequest} {s : U256}
      {h : RawSubscription} :
      Reachable m → m.upsert r s = some (h, m') → Reachable m'
  | notify {m : SubscriptionManager} (n : EthNotification) :
      Reachable m → Reachable (m.notify n)
  | remove {m : SubscriptionManager} (L : B256) :
      Reachable m → Reachable (m.remove_sub L)
  | dropIds {m : SubscriptionManager} :
      Reachable m → Reachable m.drop_server_ids


/-! ## Helper lemmas about the bidirectional maps and registry operations -/

theorem mem_bimapInsert {m : List (B256 × U256)} {l : B256} {r : U256} {p : B256 × U256} :
    p ∈ bimapInsert m l r ↔ (p ∈ m ∧ p.1 ≠ l ∧ p.2 ≠ r) ∨ p = (l, r) := by
  simp [bimapInsert, List.mem_filter, List.mem_append]

theorem lookupByRight_eq_none {m : List (B256 × U256)} {s : U256} :
    lookupByRight m s = none ↔ ∀ p ∈ m, p.2 ≠ s := by
  simp [lookupByRight, List.find?_eq_none]

theorem lookupByRight_bimapInsert_self (m : List (B256 × U256)) (l : B256) (r : U256) :
    lookupByRight (bimapInsert m l r) r = some l := by
  have hnone : (m.filter (fun p => decide (p.1 ≠ l ∧ p.2 ≠ r))).find?
      (fun p => decide (p.2 = r)) = none := by
    rw [List.find?_eq_none]
    intro p hp
    rcases List.mem_filter.mp hp with ⟨_, hpred⟩
    have h2 := (of_decide_eq_true hpred).2
    simp [h2]
  unfold lookupByRight bimapInsert
  rw [List.find?_append, hnone]
  simp [List.find?]

theorem lookupByRight_bimapInsert_twice {m : List (B256 × U256)} {l : B256}
    {s1 s2 : U256} (hs : s1 ≠ s2) :
    lookupByRight (bimapInsert (bimapInsert m l s1) l s2) s1 = none := by
  rw [lookupByRight_eq_none]
  intro p hp
  rcases mem_bimapInsert.mp hp with ⟨hmem, _, _⟩ | rfl
  · rcases mem_bimapInsert.mp hmem with ⟨_, _, h2⟩ | rfl
    · exact h2
    · simp_all
  · exact fun h => hs h.symm

theorem lookupSub_subInsert_self (m : List (B256 × ActiveSubscription)) (l : B256)
    (a : ActiveSubscription) : lookupSub (subInsert m l a) l = some a := by
  have hnone : (m.filter (fun p => decide (p.1 ≠ l ∧ p.2.local_id ≠ a.local_id))).find?
      (fun p => decide (p.1 = l)) = none := by
    rw [List.find?_eq_none]
    intro p hp
    rcases List.mem_filter.mp hp with ⟨_, hpred⟩
    have h1 := (of_decide_eq_true hpred).1
    simp [h1]
  unfold lookupSub subInsert
  rw [List.find?_append, hnone]
  simp [List.find?]

theorem containsLeft_iff {m : List (B256 × ActiveSubscription)} {k : B256} :
    containsLeft m k = true ↔ (lookupSub m k).isSome = true := by
  simp [containsLeft, lookupSub, List.any_eq_true, List.find?_isSome]

theorem lookupSub_mem {m : List (B256 × ActiveSubscription)} {k : B256}
    {a : ActiveSubscription} (h : lookupSub m k = some a) : (k, a) ∈ m := by
  rcases Option.map_eq_some'.mp h with ⟨p, hfind, hsnd⟩
  have hk := List.find?_some hfind
  have hmem := List.mem_of_find?_eq_some hfind
  obtain ⟨p1, p2⟩ := p
  simp only [decide_eq_true_eq] at hk
  simp only at hsnd
  subst hk
  subst hsnd
  exact hmem



theorem subscribe_fst (a : ActiveSubscription) (heap : ChanHeap) :
    (a.subscribe heap).1.chan = a.tx ∧ (a.subscribe heap).1.local_id = a.local_id := by
  unfold ActiveSubscription.subscribe
  cases heap.get? a.tx <;> simp [BChannel.resubscribe]

theorem get_subscription_spec {m : SubscriptionManager} {L : B256}
    {a : ActiveSubscription} (ha : lookupSub m.local_to_sub L = some a) :
    ∃ h m', m.get_subscription L = some (h, m') ∧ h.chan = a.tx ∧
      h.local_id = a.local_id ∧ m'.local_to_sub = m.local_to_sub ∧
      m'.local_to_server = m.local_to_server := by
  refine ⟨(a.subscribe m.channels).1, { m with channels := (a.subscribe m.channels).2 },
    ?_, (subscribe_fst a m.channels).1, (subscribe_fst a m.channels).2, rfl, rfl⟩
  simp [SubscriptionManager.get_subscription, ha]

theorem upsert_spec (m : SubscriptionManager) (r : SerializedRequest) (s : U256) :
    ∃ h m' a, m.upsert r s = some (h, m') ∧
      m'.local_to_server = bimapInsert m.local_to_server r.params_hash s ∧
      lookupSub m'.local_to_sub r.params_hash = some a ∧
      h.chan = a.tx ∧ h.local_id = a.local_id ∧
      (containsLeft m.local_to_sub r.params_hash = true →
        m'.local_to_sub = m.local_to_sub ∧
        lookupSub m.local_to_sub r.params_hash = some a) := by
  unfold SubscriptionManager.upsert
  by_cases hc : containsLeft m.local_to_sub r.params_hash
  · rw [if_pos hc]
    have hsome := containsLeft_iff.mp hc
    obtain ⟨a, ha⟩ := Option.isSome_iff_exists.mp hsome
    have ha' : lookupSub (m.change_server_id r.params_hash s).local_to_sub
        r.params_hash = some a := ha
    obtain ⟨h, m', hget, hchan, hlid, hsub, hserv⟩ := get_subscription_spec ha'
    refine ⟨h, m', a, hget, ?_, ?_, hchan, hlid, fun _ => ⟨?_, ha⟩⟩
    · rw [hserv]; rfl
    · rw [hsub]; exact ha
    · rw [hsub]; rfl
  · rw [if_neg hc]
    refine ⟨_, _, (ActiveSubscription.new r m.channels).1, rfl, rfl, ?_, ?_, ?_, fun hcc => absurd hcc hc⟩
    · exact lookupSub_subInsert_self ..
    · exact (subscribe_fst ..).1
    · exact (subscribe_fst ..).2



theorem lookupByRight_mem {m : List (B256 × U256)} {s : U256} {L : B256}
    (h : lookupByRight m s = some L) : (L, s) ∈ m := by
  rcases Option.map_eq_some'.mp h with ⟨p, hfind, hfst⟩
  have hk := List.find?_some hfind
  have hmem := List.mem_of_find?_eq_some hfind
  obtain ⟨p1, p2⟩ := p
  simp only [decide_eq_true_eq] at hk
  simp only at hfst
  subst hk
  subst hfst
  exact hmem

theorem remove_sub_maps (m : SubscriptionManager) (L : B256) :
    (m.remove_sub L).local_to_sub
        = m.local_to_sub.filter (fun p => decide (p.1 ≠ L)) ∧
    (m.remove_sub L).local_to_server = removeByLeftServer m.local_to_server L := by
  unfold SubscriptionManager.remove_sub removeByLeftSub
  cases lookupSub m.local_to_sub L <;> simp

theorem lookupSub_filter_self (m : List (B256 × ActiveSubscription)) (L : B256) :
    lookupSub (m.filter (fun p => decide (p.1 ≠ L))) L = none := by
  unfold lookupSub
  rw [List.find?_eq_none.mpr, Option.map_none']
  intro p hp
  have := of_decide_eq_true (List.mem_filter.mp hp).2
  simp [this]

/-- Claim C5: `notify` with an unknown server identity returns normally and
leaves the whole registry state — both mappings and every channel — exactly
unchanged, so no handle is delivered the payload. -/
theorem notify_unknown_id (m : SubscriptionManager) (n : EthNotification)
    (h : m.local_id_for n.subscription = none) : m.notify n = m := by
  unfold SubscriptionManager.notify
  rw [h]

theorem notify_unknown_id_witness :
    SubscriptionManager.empty.local_id_for 5 = none ∧
      SubscriptionManager.empty.notify ⟨5, 9⟩ = SubscriptionManager.empty :=
  ⟨rfl, notify_unknown_id SubscriptionManager.empty ⟨5, 9⟩ rfl⟩

/-- Claim C9: on the dedup path of `upsert` — the computed Local Identity is
already a key of the record map — `get_subscription` (also after the server-id
rotation the code performs first) returns `some`, so the
`.expect("checked existence")` never panics and `upsert` itself succeeds. -/
theorem upsert_dedup_no_panic (m : SubscriptionManager) (r : SerializedRequest)
    (s : U256) (h : containsLeft m.local_to_sub r.params_hash = true) :
    (m.get_subscription r.params_hash).isSome = true ∧
    (((m.change_server_id r.params_hash s).get_subscription
        r.params_hash).isSome = true) ∧
    (m.upsert r s).isSome = true := by
  have hsome := containsLeft_iff.mp h
  obtain ⟨a, ha⟩ := Option.isSome_iff_exists.mp hsome
  refine ⟨?_, ?_, ?_⟩
  · simp [SubscriptionManager.get_subscription, ha]
  · have ha' : lookupSub (m.change_server_id r.params_hash s).local_to_sub
        r.params_hash = some a := ha
    simp [SubscriptionManager.get_subscription, ha']
  · obtain ⟨h1, m1, a1, hu, _⟩ := upsert_spec m r s
    simp [hu]

theorem upsert_dedup_no_panic_witness :
    containsLeft sampleManager.local_to_sub [1] = true ∧
    (sampleManager.upsert ⟨[1]⟩ 7).isSome = true := by
  refine ⟨by decide, ?_⟩
  exact (upsert_dedup_no_panic sampleManager ⟨[1]⟩ 7 (by decide)).2.2



/-- Claim C1, amended (corrected): for byte-identical request parameters and
*distinct* server identities `s1 ≠ s2`, the two `upsert` calls both succeed,
the two handles are on one channel, and afterwards `local_id_for s2` is the
shared Local Identity while `local_id_for s1` is `none`. (With `s1 = s2` the
last conjunct fails; see the counterexample.) -/
theorem upsert_dedup_property (m0 : SubscriptionManager)
    (R1 R2 : SerializedRequest) (s1 s2 : U256)
    (hr : R1.params = R2.params) (hs : s1 ≠ s2) :
    ∃ h1 m1 h2 m2,
      m0.upsert R1 s1 = some (h1, m1) ∧
      m1.upsert R2 s2 = some (h2, m2) ∧
      h1.same_channel h2 = true ∧
      m2.local_id_for s2 = some R1.params_hash ∧
      m2.local_id_for s1 = none := by
  obtain ⟨h1, m1, a1, hu1, hserv1, hlk1, hchan1, _, _⟩ := upsert_spec m0 R1 s1
  obtain ⟨h2, m2, a2, hu2, hserv2, hlk2, hchan2, _, hded⟩ := upsert_spec m1 R2 s2
  have hL : R2.params_hash = R1.params_hash := by
    simp [SerializedRequest.params_hash, hr]
  have hc1 : containsLeft m1.local_to_sub R2.params_hash = true := by
    rw [hL]
    exact containsLeft_iff.mpr (by rw [hlk1]; rfl)
  obtain ⟨hsubeq, ha2⟩ := hded hc1
  have ha12 : a2 = a1 := by
    rw [hL, hlk1] at ha2
    exact (Option.some_inj.mp ha2).symm
  refine ⟨h1, m1, h2, m2, hu1, hu2, ?_, ?_, ?_⟩
  · simp [RawSubscription.same_channel, hchan1, hchan2, ha12]
  · unfold SubscriptionManager.local_id_for
    rw [hserv2, hL, hserv1]
    exact lookupByRight_bimapInsert_self ..
  · unfold SubscriptionManager.local_id_for
    rw [hserv2, hL, hserv1]
    exact lookupByRight_bimapInsert_twice hs

theorem upsert_dedup_property_witness :
    ([1] : List Nat) = [1] ∧ (5 : U256) ≠ 7 ∧
    ∃ h1 m1 h2 m2,
      SubscriptionManager.empty.upsert ⟨[1]⟩ 5 = some (h1, m1) ∧
      m1.upsert ⟨[1]⟩ 7 = some (h2, m2) ∧
      h1.same_channel h2 = true ∧
      m2.local_id_for 7 = some (SerializedRequest.params_hash ⟨[1]⟩) ∧
      m2.local_id_for 5 = none :=
  ⟨rfl, by decide,
    upsert_dedup_property SubscriptionManager.empty ⟨[1]⟩ ⟨[1]⟩ 5 7 rfl (by decide)⟩

/-- Counterexample to claim C1 as stated: it quantifies over *any* server
identities, but with `s1 = s2 = 5` the second `upsert` leaves
`local_id_for s1 = some L` — the shared Local Identity — not `none`. -/
theorem upsert_dedup_eq_ids_cex :
    SubscriptionManager.empty.upsert ⟨[1]⟩ 5
      = some (⟨0, 0, [1]⟩,
        { local_to_sub := [([1], { local_id := [1], request := ⟨[1]⟩, tx := 0 })],
          local_to_server := [([1], 5)],
          channels := [{ history := [], receivers := 1, closed := false }] }) ∧
    ({ local_to_sub := [([1], { local_id := [1], request := ⟨[1]⟩, tx := 0 })],
       local_to_server := [([1], 5)],
       channels := [{ history := [], receivers := 1, closed := false }] } :
       SubscriptionManager).upsert ⟨[1]⟩ 5
      = some (⟨0, 0, [1]⟩,
        { local_to_sub := [([1], { local_id := [1], request := ⟨[1]⟩, tx := 0 })],
          local_to_server := [([1], 5)],
          channels := [{ history := [], receivers := 2, closed := false }] }) ∧
    ¬ ({ local_to_sub := [([1], { local_id := [1], request := ⟨[1]⟩, tx := 0 })],
         local_to_server := [([1], 5)],
         channels := [{ history := [], receivers := 2, closed := false }] } :
         SubscriptionManager).local_id_for 5 = none := by
  refine ⟨by decide, by decide, by decide⟩



/-- Claim C2: reconnect continuity. With an entry of Local Identity `L`
(record `rec`) currently mapped to server id `s1`: `drop_server_ids` empties
the whole local-to-server mapping (every reverse lookup returns `none`) while
leaving the record map and every channel exactly unchanged, `get_subscription
L` still returns a handle on the record's channel, and a subsequent `upsert`
with the same request bytes and a fresh server id `s2` succeeds,
re-establishing `local_id_for s2 = some L` on that same channel. -/
theorem drop_server_ids_continuity (m : SubscriptionManager) (L : B256)
    (s1 s2 : U256) (rec : ActiveSubscription) (R : SerializedRequest)
    (_hmap : m.local_id_for s1 = some L)
    (hrec : lookupSub m.local_to_sub L = some rec)
    (hR : R.params_hash = L) :
    (∀ s, (m.drop_server_ids).local_id_for s = none) ∧
    (m.drop_server_ids).local_to_sub = m.local_to_sub ∧
    (m.drop_server_ids).channels = m.channels ∧
    (∃ h mh, (m.drop_server_ids).get_subscription L = some (h, mh) ∧
      h.chan = rec.tx) ∧
    (∃ h2 m2, (m.drop_server_ids).upsert R s2 = some (h2, m2) ∧
      m2.local_id_for s2 = some L ∧ h2.chan = rec.tx) := by
  refine ⟨fun s => rfl, rfl, rfl, ?_, ?_⟩
  · have hrec' : lookupSub (m.drop_server_ids).local_to_sub L = some rec := hrec
    obtain ⟨h, mh, hget, hchan, _, _, _⟩ := get_subscription_spec hrec'
    exact ⟨h, mh, hget, hchan⟩
  · obtain ⟨h2, m2, a2, hu, hserv, hlk, hchan, _, hded⟩ :=
      upsert_spec m.drop_server_ids R s2
    have hrecR : lookupSub m.local_to_sub R.params_hash = some rec := by
      rw [hR]; exact hrec
    have hc : containsLeft (m.drop_server_ids).local_to_sub
        R.params_hash = true :=
      containsLeft_iff.mpr (by rw [show lookupSub (m.drop_server_ids).local_to_sub
        R.params_hash = some rec from hrecR]; rfl)
    obtain ⟨_, ha⟩ := hded hc
    have ha2 : a2 = rec := by
      have ha' : lookupSub m.local_to_sub R.params_hash = some a2 := ha
      rw [hrecR] at ha'
      exact (Option.some_inj.mp ha').symm
    refine ⟨h2, m2, hu, ?_, by rw [hchan, ha2]⟩
    unfold SubscriptionManager.local_id_for
    rw [hserv, hR]
    exact lookupByRight_bimapInsert_self ..

theorem drop_server_ids_continuity_witness :
    ∃ h mh h2 m2,
      (sampleManager.drop_server_ids).get_subscription [1]
        = some (h, mh) ∧ h.chan = 0 ∧
      (sampleManager.drop_server_ids).upsert ⟨[1]⟩ 7
        = some (h2, m2) ∧ m2.local_id_for 7 = some [1] ∧ h2.chan = 0 := by
  obtain ⟨-, -, -, ⟨h, mh, hget, hchan⟩, ⟨h2, m2, hu, hl, hc⟩⟩ :=
    drop_server_ids_continuity sampleManager [1] 5 7 sampleRecord ⟨[1]⟩
      (by decide) (by decide) (by decide)
  refine ⟨h, mh, h2, m2, hget, ?_, hu, hl, ?_⟩
  · rw [hchan]; rfl
  · rw [hc]; rfl



/-- Claim C4: `remove_sub L` removes `L` from the record map and the server-id
map in the one atomic registry step, `get_subscription L` then returns
nothing, no server id resolves to `L` any more, and the removed record's
channel is closed (its write end is dropped), so a handle that has drained
the buffered history observes `closed` on its next read. -/
theorem remove_sub_property (m : SubscriptionManager) (L : B256) :
    (m.remove_sub L).get_subscription L = none ∧
    lookupSub (m.remove_sub L).local_to_sub L = none ∧
    (∀ s, ¬ (m.remove_sub L).local_id_for s = some L) ∧
    (∀ rec, lookupSub m.local_to_sub L = some rec →
      rec.tx < m.channels.length →
      ∃ ch, (m.remove_sub L).channels.get? rec.tx = some ch ∧
        ch.closed = true ∧
        ∀ cursor, ch.history.length ≤ cursor →
          tryRecvCh ch cursor = (.error .closed, cursor)) := by
  obtain ⟨hsub, hserv⟩ := remove_sub_maps m L
  refine ⟨?_, ?_, ?_, ?_⟩
  · unfold SubscriptionManager.get_subscription
    rw [hsub, lookupSub_filter_self, Option.map_none']
  · rw [hsub]; exact lookupSub_filter_self ..
  · intro s hcontra
    unfold SubscriptionManager.local_id_for at hcontra
    rw [hserv] at hcontra
    have hmem := lookupByRight_mem hcontra
    have := of_decide_eq_true (List.mem_filter.mp hmem).2
    exact this rfl
  · intro rec hrec hlt
    have hch : (m.remove_sub L).channels = closeChan m.channels rec.tx := by
      unfold SubscriptionManager.remove_sub removeByLeftSub
      rw [hrec]
    have hch0 : m.channels.get? rec.tx = some (m.channels.get ⟨rec.tx, hlt⟩) :=
      List.get?_eq_get hlt
    set ch0 := m.channels.get ⟨rec.tx, hlt⟩ with hdef
    refine ⟨{ ch0 with closed := true }, ?_, rfl, ?_⟩
    · rw [hch]
      unfold closeChan
      rw [hch0, List.get?_eq_getElem?]
      exact List.getElem?_set_self (by simpa using hlt)
    · intro cursor hcur
      have hcur' : ch0.history.length ≤ cursor := hcur
      have h1 : ¬ cursor < BChannel.oldest { ch0 with closed := true } := by
        show ¬ cursor < ch0.history.length - channelCapacity
        omega
      have h2 : ¬ cursor < ({ ch0 with closed := true } : BChannel).history.length := by
        show ¬ cursor < ch0.history.length
        omega
      unfold tryRecvCh
      rw [if_neg h1, dif_neg h2, if_pos rfl]



theorem remove_sub_property_witness :
    (sampleManager.remove_sub [1]).get_subscription [1] = none ∧
    ¬ (sampleManager.remove_sub [1]).local_id_for 5 = some [1] ∧
    tryRecvCh { history := [9], receivers := 1, closed := true } 1
      = (.error .closed, 1) := by
  obtain ⟨h1, -, h3, h4⟩ := remove_sub_property sampleManager [1]
  obtain ⟨ch, hch, -, hread⟩ := h4 sampleRecord (by decide) (by decide)
  have hcomp : ch = { history := [9], receivers := 1, closed := true } :=
    (Option.some_inj.mp
      ((by decide :
        (sampleManager.remove_sub [1]).channels.get? 0
          = some { history := [9], receivers := 1, closed := true }).symm.trans hch)).symm
  refine ⟨h1, h3 5, ?_⟩
  have hr := hread 1 (by rw [hcomp]; decide)
  rw [hcomp] at hr
  exact hr



theorem recvStrict_append_skip {T E : Type} (decode : RawVal → Option T)
    (pre l : List (Except E RawVal))
    (hpre : ∀ x ∈ pre, ∃ u, x = .ok u ∧ decode u = none) :
    recvStrict decode (pre ++ l) = recvStrict decode l := by
  induction pre with
  | nil => rfl
  | cons x pre ih =>
    obtain ⟨u, rfl, hu⟩ := hpre x (List.mem_cons_self ..)
    simp only [List.cons_append, recvStrict, recvAnyStep, Except.map,
      SubscriptionItem.fromRaw, hu]
    exact ih fun y hy => hpre y (List.mem_cons_of_mem _ hy)

theorem recvStrict_ok_iff {T E : Type} (decode : RawVal → Option T)
    (outcomes : List (Except E RawVal)) (t : T) :
    recvStrict decode outcomes = some (.ok t) ↔
      ∃ pre v rest, outcomes = pre ++ .ok v :: rest ∧ decode v = some t ∧
        ∀ x ∈ pre, ∃ u, x = .ok u ∧ decode u = none := by
  constructor
  · intro h
    induction outcomes with
    | nil => simp [recvStrict] at h
    | cons o rest0 ih =>
      cases o with
      | error e => simp [recvStrict, recvAnyStep, Except.map] at h
      | ok v =>
        cases hd : decode v with
        | some t' =>
          simp only [recvStrict, recvAnyStep, Except.map,
            SubscriptionItem.fromRaw, hd, Option.some_inj] at h
          obtain rfl : t' = t := by
            cases h
            rfl
          exact ⟨[], v, rest0, rfl, hd, by simp⟩
        | none =>
          simp only [recvStrict, recvAnyStep, Except.map,
            SubscriptionItem.fromRaw, hd] at h
          obtain ⟨pre, w, rest, rfl, hw, hpre⟩ := ih h
          refine ⟨.ok v :: pre, w, rest, rfl, hw, ?_⟩
          intro x hx
          rcases List.mem_cons.mp hx with rfl | hx'
          · exact ⟨v, rfl, hd⟩
          · exact hpre x hx'
  · rintro ⟨pre, v, rest, rfl, hv, hpre⟩
    rw [recvStrict_append_skip decode pre _ hpre]
    simp [recvStrict, recvAnyStep, Except.map, SubscriptionItem.fromRaw, hv]

theorem recvStrict_error_iff {T E : Type} (decode : RawVal → Option T)
    (outcomes : List (Except E RawVal)) (e : E) :
    recvStrict decode outcomes = some (.error e) ↔
      ∃ pre rest, outcomes = pre ++ .error e :: rest ∧
        ∀ x ∈ pre, ∃ u, x = .ok u ∧ decode u = none := by
  constructor
  · intro h
    induction outcomes with
    | nil => simp [recvStrict] at h
    | cons o rest0 ih =>
      cases o with
      | error e' =>
        simp only [recvStrict, recvAnyStep, Except.map, Option.some_inj] at h
        obtain rfl : e' = e := by
          cases h
          rfl
        exact ⟨[], rest0, rfl, by simp⟩
      | ok v =>
        cases hd : decode v with
        | some t' =>
          simp [recvStrict, recvAnyStep, Except.map,
            SubscriptionItem.fromRaw, hd] at h
        | none =>
          simp only [recvStrict, recvAnyStep, Except.map,
            SubscriptionItem.fromRaw, hd] at h
          obtain ⟨pre, rest, rfl, hpre⟩ := ih h
          refine ⟨.ok v :: pre, rest, rfl, ?_⟩
          intro x hx
          rcases List.mem_cons.mp hx with rfl | hx'
          · exact ⟨v, rfl, hd⟩
          · exact hpre x hx'
  · rintro ⟨pre, rest, rfl, hpre⟩
    rw [recvStrict_append_skip decode pre _ hpre]
    simp [recvStrict, recvAnyStep, Except.map]

/-- Claim C6: the strict receive loop of `Subscription::{recv, blocking_recv,
try_recv}` returns `Ok t` exactly when the underlying outcome sequence starts
with undecodable payloads (silently discarded) followed by a payload decoding
to `t`, and returns a channel error (`Closed`, `Lagged`, or `Empty` for
`try_recv`) exactly when such a discarded prefix is followed by that error —
so a `Lagged` hit inside the retry loop is surfaced, never skipped past. -/
theorem recvStrict_characterization {T E : Type} (decode : RawVal → Option T)
    (outcomes : List (Except E RawVal)) :
    (∀ t : T, recvStrict decode outcomes = some (.ok t) ↔
      ∃ pre v rest, outcomes = pre ++ .ok v :: rest ∧ decode v = some t ∧
        ∀ x ∈ pre, ∃ u, x = .ok u ∧ decode u = none) ∧
    (∀ e : E, recvStrict decode outcomes = some (.error e) ↔
      ∃ pre rest, outcomes = pre ++ .error e :: rest ∧
        ∀ x ∈ pre, ∃ u, x = .ok u ∧ decode u = none) :=
  ⟨fun t => recvStrict_ok_iff decode outcomes t,
   fun e => recvStrict_error_iff decode outcomes e⟩

theorem recvStrict_characterization_witness :
    recvStrict evenDecoder
        [Except.ok 3, Except.ok 4, Except.error TryRecvError.closed]
      = some (.ok 4) ∧
    recvStrict evenDecoder
        [Except.ok 3, Except.error (TryRecvError.lagged 2), Except.ok 4]
      = some (.error (TryRecvError.lagged 2)) := by
  constructor
  · exact ((recvStrict_characterization evenDecoder
      [Except.ok 3, Except.ok 4, Except.error TryRecvError.closed]).1 4).mpr
      ⟨[Except.ok 3], 4, [Except.error TryRecvError.closed], rfl, rfl, by
        intro x hx
        rcases List.mem_singleton.mp hx with rfl
        exact ⟨3, rfl, rfl⟩⟩
  · exact ((recvStrict_characterization evenDecoder
      [Except.ok 3, Except.error (TryRecvError.lagged 2), Except.ok 4]).2
        (TryRecvError.lagged 2)).mpr
      ⟨[Except.ok 3], [Except.ok 4], rfl, by
        intro x hx
        rcases List.mem_singleton.mp hx with rfl
        exact ⟨3, rfl, rfl⟩⟩

/-- Claim C7: the tagged receive (`recv_any` and variants) never discards a
successfully received payload: it yields `Item t` when the payload decodes as
the expected type and `Other v` carrying the raw payload unmodified when it
does not. -/
theorem recv_any_tagged {T E : Type} (decode : RawVal → Option T) (v : RawVal) :
    (∀ t, decode v = some t →
      recvAnyStep decode (.ok v : Except E RawVal) = .ok (.item t)) ∧
    (decode v = none →
      recvAnyStep decode (.ok v : Except E RawVal) = .ok (.other v)) := by
  constructor
  · intro t ht
    simp [recvAnyStep, Except.map, SubscriptionItem.fromRaw, ht]
  · intro hn
    simp [recvAnyStep, Except.map, SubscriptionItem.fromRaw, hn]

theorem recv_any_tagged_witness :
    recvAnyStep evenDecoder (.ok 4 : Except TryRecvError RawVal)
      = .ok (.item 4) ∧
    recvAnyStep evenDecoder (.ok 3 : Except TryRecvError RawVal)
      = .ok (.other 3) :=
  ⟨(recv_any_tagged evenDecoder 4).1 4 rfl,
   (recv_any_tagged evenDecoder 3).2 rfl⟩



theorem tryRecvCh_cursor_le (ch : BChannel) (cursor : Nat) :
    cursor ≤ (tryRecvCh ch cursor).2 := by
  unfold tryRecvCh
  split_ifs with h1 h2 h3 <;> simp
  omega

theorem chRun_received_ge (n0 : Nat) (s : ReaderTrace) (events : List ChEvent)
    (hc : n0 ≤ s.cursor) (hr : ∀ i ∈ s.receivedIdx, n0 ≤ i) :
    n0 ≤ (chRun s events).cursor ∧
      ∀ i ∈ (chRun s events).receivedIdx, n0 ≤ i := by
  induction events generalizing s with
  | nil => exact ⟨hc, hr⟩
  | cons e events ih =>
    refine ih (chStep s e) ?_ ?_
    · cases e with
      | pub v => exact hc
      | read =>
        have hle := tryRecvCh_cursor_le s.ch s.cursor
        unfold chStep
        rcases hres : tryRecvCh s.ch s.cursor with ⟨r, c⟩
        cases r <;> simp <;> rw [hres] at hle <;> omega
    · cases e with
      | pub v => exact hr
      | read =>
        unfold chStep
        rcases hres : tryRecvCh s.ch s.cursor with ⟨r, c⟩
        cases r with
        | error e' => exact hr
        | ok v =>
          intro i hi
          simp only [List.mem_append, List.mem_singleton] at hi
          rcases hi with hi | rfl
          · exact hr i hi
          · exact hc

/-- Claim C8: no replay. A handle minted by `resubscribe` starts at the
writer's current position; along any interleaving of publishes and reads it
only ever receives history entries at indices at or past that position, so a
value published before the `resubscribe` — index `i` below the history length
at that moment, even one still retained in the buffer — is never received. -/
theorem resubscribe_no_replay (ch0 : BChannel) (events : List ChEvent)
    (i : Nat) (hi : i < ch0.history.length) :
    i ∉ (chRun (resubReader ch0) events).receivedIdx := by
  intro hmem
  have hinv := chRun_received_ge ch0.history.length (resubReader ch0) events
    (by simp [resubReader, BChannel.resubscribe]) (by simp [resubReader])
  have := hinv.2 i hmem
  omega

theorem resubscribe_no_replay_witness :
    (0 < ({ history := [7], receivers := 1, closed := false } :
        BChannel).history.length) ∧
    0 ∉ (chRun (resubReader { history := [7], receivers := 1, closed := false })
        [ChEvent.pub 9, ChEvent.read]).receivedIdx :=
  ⟨by decide,
   resubscribe_no_replay { history := [7], receivers := 1, closed := false }
     [ChEvent.pub 9, ChEvent.read] 0 (by decide)⟩



theorem mem_subInsert {m : List (B256 × ActiveSubscription)} {l : B256}
    {a : ActiveSubscription} {p : B256 × ActiveSubscription} :
    p ∈ subInsert m l a ↔
      (p ∈ m ∧ p.1 ≠ l ∧ p.2.local_id ≠ a.local_id) ∨ p = (l, a) := by
  simp [subInsert, List.mem_filter, List.mem_append]

theorem nodup_fst_bimapInsert {m : List (B256 × U256)} {l : B256} {r : U256}
    (h : (m.map Prod.fst).Nodup) :
    ((bimapInsert m l r).map Prod.fst).Nodup := by
  unfold bimapInsert
  rw [List.map_append, List.nodup_append]
  refine ⟨List.Nodup.sublist (List.Sublist.map _ (List.filter_sublist m)) h,
    List.nodup_singleton _, ?_⟩
  intro x hx hx2
  obtain ⟨p, hp, rfl⟩ := List.mem_map.mp hx
  have hpred := of_decide_eq_true (List.mem_filter.mp hp).2
  have hl : p.1 = l := by simpa using hx2
  exact hpred.1 hl

theorem nodup_snd_bimapInsert {m : List (B256 × U256)} {l : B256} {r : U256}
    (h : (m.map Prod.snd).Nodup) :
    ((bimapInsert m l r).map Prod.snd).Nodup := by
  unfold bimapInsert
  rw [List.map_append, List.nodup_append]
  refine ⟨List.Nodup.sublist (List.Sublist.map _ (List.filter_sublist m)) h,
    List.nodup_singleton _, ?_⟩
  intro x hx hx2
  obtain ⟨p, hp, rfl⟩ := List.mem_map.mp hx
  have hpred := of_decide_eq_true (List.mem_filter.mp hp).2
  have hr : p.2 = r := by simpa using hx2
  exact hpred.2 hr

theorem nodup_fst_subInsert {m : List (B256 × ActiveSubscription)} {l : B256}
    {a : ActiveSubscription} (h : (m.map Prod.fst).Nodup) :
    ((subInsert m l a).map Prod.fst).Nodup := by
  unfold subInsert
  rw [List.map_append, List.nodup_append]
  refine ⟨List.Nodup.sublist (List.Sublist.map _ (List.filter_sublist m)) h,
    List.nodup_singleton _, ?_⟩
  intro x hx hx2
  obtain ⟨p, hp, rfl⟩ := List.mem_map.mp hx
  have hpred := of_decide_eq_true (List.mem_filter.mp hp).2
  have hl : p.1 = l := by simpa using hx2
  exact hpred.1 hl

theorem containsLeft_subInsert_self (m : List (B256 × ActiveSubscription))
    (l : B256) (a : ActiveSubscription) :
    containsLeft (subInsert m l a) l = true :=
  containsLeft_iff.mpr (by rw [lookupSub_subInsert_self]; rfl)

theorem containsLeft_subInsert_of {m : List (B256 × ActiveSubscription)}
    {l k : B256} {a : ActiveSubscription}
    (hkey : ∀ p ∈ m, p.2.local_id = p.1) (hal : a.local_id = l) (hk : k ≠ l)
    (h : containsLeft m k = true) : containsLeft (subInsert m l a) k = true := by
  obtain ⟨q, hq, hq1⟩ := List.any_eq_true.mp h
  have hq1' : q.1 = k := of_decide_eq_true hq1
  refine List.any_eq_true.mpr ⟨q, ?_, hq1⟩
  refine mem_subInsert.mpr (Or.inl ⟨hq, ?_, ?_⟩)
  · rw [hq1']; exact hk
  · rw [hkey q hq, hq1', hal]; exact hk

theorem containsLeft_filter_ne {m : List (B256 × ActiveSubscription)}
    {L k : B256} (hk : k ≠ L) (h : containsLeft m k = true) :
    containsLeft (m.filter (fun p => decide (p.1 ≠ L))) k = true := by
  obtain ⟨q, hq, hq1⟩ := List.any_eq_true.mp h
  have hq1' : q.1 = k := of_decide_eq_true hq1
  refine List.any_eq_true.mpr ⟨q, List.mem_filter.mpr ⟨hq, ?_⟩, hq1⟩
  simp [hq1', hk]

theorem find?_filter_key_ne {m : List (B256 × ActiveSubscription)}
    {L k : B256} (hk : ¬ k = L) :
    (m.filter (fun q => decide (q.1 ≠ L))).find? (fun q => decide (q.1 = k))
      = m.find? (fun q => decide (q.1 = k)) := by
  induction m with
  | nil => rfl
  | cons q m ih =>
    rw [List.filter_cons]
    by_cases hq : q.1 = L
    · rw [if_neg (by simp [hq]), List.find?_cons]
      have h2 : decide (q.1 = k) = false := by
        rw [decide_eq_false_iff_not]
        intro hc
        exact hk (hc.symm.trans hq)
      rw [h2]
      exact ih
    · rw [if_pos (by simp [hq]), List.find?_cons, List.find?_cons]
      cases hq2 : decide (q.1 = k)
      · exact ih
      · rfl

theorem notify_cases (m : SubscriptionManager) (n : EthNotification) :
    m.notify n = m ∨
      ∃ L rec, m.local_id_for n.subscription = some L ∧
        lookupSub m.local_to_sub L = some rec ∧
        (m.notify n).local_to_sub
          = subInsert (m.local_to_sub.filter (fun q => decide (q.1 ≠ L))) L rec ∧
        (m.notify n).local_to_server = m.local_to_server := by
  unfold SubscriptionManager.notify
  cases h1 : m.local_id_for n.subscription with
  | none => exact Or.inl rfl
  | some L =>
    cases h2 : lookupSub m.local_to_sub L with
    | none =>
      refine Or.inl ?_
      simp only [removeByLeftSub, h2]
    | some rec =>
      refine Or.inr ⟨L, rec, rfl, h2, ?_, ?_⟩ <;>
        simp only [removeByLeftSub, h2]

theorem notify_local_to_server (m : SubscriptionManager) (n : EthNotification) :
    (m.notify n).local_to_server = m.local_to_server := by
  rcases notify_cases m n with h | ⟨L, rec, _, _, _, h⟩
  · rw [h]
  · exact h

theorem notify_lookupSub {m : SubscriptionManager}
    (hkey : ∀ p ∈ m.local_to_sub, p.2.local_id = p.1) (n : EthNotification)
    (k : B256) :
    lookupSub (m.notify n).local_to_sub k = lookupSub m.local_to_sub k := by
  rcases notify_cases m n with h | ⟨L, rec, hL, hrec, hsub, hserv⟩
  · rw [h]
  · rw [hsub]
    by_cases hk : k = L
    · subst hk
      rw [lookupSub_subInsert_self, hrec]
    · have hrecL : rec.local_id = L := hkey (L, rec) (lookupSub_mem hrec)
      unfold lookupSub subInsert
      rw [List.find?_append]
      have hone : ([(L, rec)].find? (fun q => decide (q.1 = k))) = none := by
        rw [List.find?_eq_none]
        intro x hx
        rw [List.mem_singleton.mp hx]
        simp
        intro hc
        exact hk hc.symm
      have hfe : ((m.local_to_sub.filter (fun q => decide (q.1 ≠ L))).filter
          (fun q => decide (q.1 ≠ L ∧ q.2.local_id ≠ rec.local_id)))
          = m.local_to_sub.filter (fun q => decide (q.1 ≠ L)) := by
        rw [List.filter_eq_self]
        intro q hq
        have hq1 : q.1 ≠ L := of_decide_eq_true (List.mem_filter.mp hq).2
        have hq2 : q.2.local_id = q.1 :=
          hkey q (List.mem_of_mem_filter hq)
        rw [decide_eq_true_eq]
        exact ⟨hq1, by rw [hq2, hrecL]; exact hq1⟩
      rw [hfe, hone, Option.or_none, find?_filter_key_ne hk]



theorem wf_empty : WF SubscriptionManager.empty := by
  refine ⟨?_, ?_, ?_, ?_, ?_⟩ <;> simp [SubscriptionManager.empty]

theorem wf_upsert {m m' : SubscriptionManager} {r : SerializedRequest}
    {s : U256} {h : RawSubscription} (hwf : WF m)
    (hu : m.upsert r s = some (h, m')) : WF m' := by
  obtain ⟨hkey, hnd, hf, hs, hin⟩ := hwf
  unfold SubscriptionManager.upsert at hu
  by_cases hc : containsLeft m.local_to_sub r.params_hash
  · rw [if_pos hc] at hu
    obtain ⟨a, ha, hfa⟩ := Option.map_eq_some'.mp hu
    obtain rfl : ({ (m.change_server_id r.params_hash s) with
        channels := (a.subscribe
          (m.change_server_id r.params_hash s).channels).2 } : SubscriptionManager)
        = m' := congrArg Prod.snd hfa
    refine ⟨hkey, hnd, nodup_fst_bimapInsert hf, nodup_snd_bimapInsert hs, ?_⟩
    intro p hp
    rcases mem_bimapInsert.mp hp with ⟨hpm, _, _⟩ | rfl
    · exact hin p hpm
    · exact hc
  · rw [if_neg hc] at hu
    obtain rfl : (m.insert r s).2 = m' := congrArg Prod.snd (Option.some_inj.mp hu)
    unfold SubscriptionManager.insert
    refine ⟨?_, nodup_fst_subInsert hnd,
      nodup_fst_bimapInsert hf, nodup_snd_bimapInsert hs, ?_⟩
    · intro p hp
      rcases mem_subInsert.mp hp with ⟨hpm, _, _⟩ | rfl
      · exact hkey p hpm
      · rfl
    · intro p hp
      rcases mem_bimapInsert.mp hp with ⟨hpm, hne, _⟩ | rfl
      · exact containsLeft_subInsert_of hkey rfl hne (hin p hpm)
      · exact containsLeft_subInsert_self ..

theorem wf_notify {m : SubscriptionManager} (hwf : WF m)
    (n : EthNotification) : WF (m.notify n) := by
  obtain ⟨hkey, hnd, hf, hs, hin⟩ := hwf
  rcases notify_cases m n with heq | ⟨L, rec, hL, hrec, hsub, hserv⟩
  · rw [heq]; exact ⟨hkey, hnd, hf, hs, hin⟩
  · refine ⟨?_, ?_, by rw [hserv]; exact hf, by rw [hserv]; exact hs, ?_⟩
    · intro p hp
      rw [hsub] at hp
      rcases mem_subInsert.mp hp with ⟨hpm, _, _⟩ | rfl
      · exact hkey p (List.mem_of_mem_filter hpm)
      · exact hkey (L, rec) (lookupSub_mem hrec)
    · rw [hsub]
      exact nodup_fst_subInsert
        (List.Nodup.sublist (List.Sublist.map _ (List.filter_sublist _)) hnd)
    · intro p hp
      rw [hserv] at hp
      rw [containsLeft_iff, notify_lookupSub hkey n p.1, ← containsLeft_iff]
      exact hin p hp

theorem wf_remove {m : SubscriptionManager} (hwf : WF m) (L : B256) :
    WF (m.remove_sub L) := by
  obtain ⟨hkey, hnd, hf, hs, hin⟩ := hwf
  obtain ⟨hsub, hserv⟩ := remove_sub_maps m L
  refine ⟨?_, ?_, ?_, ?_, ?_⟩
  · intro p hp
    rw [hsub] at hp
    exact hkey p (List.mem_of_mem_filter hp)
  · rw [hsub]
    exact List.Nodup.sublist (List.Sublist.map _ (List.filter_sublist _)) hnd
  · rw [hserv]
    exact List.Nodup.sublist
      (List.Sublist.map _ (List.filter_sublist _)) hf
  · rw [hserv]
    exact List.Nodup.sublist
      (List.Sublist.map _ (List.filter_sublist _)) hs
  · intro p hp
    rw [hserv] at hp
    rw [hsub]
    obtain ⟨hpm, hpL⟩ := List.mem_filter.mp hp
    exact containsLeft_filter_ne (of_decide_eq_true hpL) (hin p hpm)

theorem wf_drop {m : SubscriptionManager} (hwf : WF m) :
    WF m.drop_server_ids := by
  obtain ⟨hkey, hnd, -, -, -⟩ := hwf
  exact ⟨hkey, hnd, by simp [SubscriptionManager.drop_server_ids],
    by simp [SubscriptionManager.drop_server_ids], by
      intro p hp
      simp [SubscriptionManager.drop_server_ids] at hp⟩

theorem reachable_wf {m : SubscriptionManager} (h : Reachable m) : WF m := by
  induction h with
  | empty => exact wf_empty
  | upsert _ hu ih => exact wf_upsert ih hu
  | notify n _ ih => exact wf_notify ih n
  | remove L _ ih => exact wf_remove ih L
  | dropIds _ ih => exact wf_drop ih

/-- The concrete one-entry registry is reachable: empty, `upsert ⟨[1]⟩ 5`,
then `notify ⟨5, 9⟩`. -/
theorem reachable_sampleManager : Reachable sampleManager := by
  have h1 : Reachable sampleManagerMid :=
    @Reachable.upsert SubscriptionManager.empty sampleManagerMid ⟨[1]⟩ 5
      ⟨0, 0, [1]⟩ Reachable.empty (by decide)
  exact (by decide : sampleManagerMid.notify ⟨5, 9⟩ = sampleManager) ▸
    Reachable.notify ⟨5, 9⟩ h1



/-- Claim C3: in every registry state reachable from the empty state by
`upsert`, `notify`, `remove_sub` and `drop_server_ids`, the local-to-server
mapping is a partial bijection (no Local Identity and no Server Identity
occurs twice), every Local Identity holding a server id is also a key of the
record map, and hence a reverse lookup by Server Identity resolves to a
present record or to nothing. -/
theorem registry_invariants (m : SubscriptionManager) (h : Reachable m) :
    (m.local_to_server.map Prod.fst).Nodup ∧
    (m.local_to_server.map Prod.snd).Nodup ∧
    (∀ p ∈ m.local_to_server, containsLeft m.local_to_sub p.1 = true) ∧
    (∀ s L, m.local_id_for s = some L →
      (lookupSub m.local_to_sub L).isSome = true) := by
  obtain ⟨hkey, hnd, hf, hs, hin⟩ := reachable_wf h
  refine ⟨hf, hs, hin, ?_⟩
  intro s L hsL
  exact containsLeft_iff.mp (hin (L, s) (lookupByRight_mem hsL))

theorem registry_invariants_witness :
    (sampleManager.local_to_server.map Prod.fst).Nodup ∧
    (sampleManager.local_to_server.map Prod.snd).Nodup ∧
    (lookupSub sampleManager.local_to_sub [1]).isSome = true := by
  obtain ⟨h1, h2, -, h4⟩ := registry_invariants sampleManager
    reachable_sampleManager
  exact ⟨h1, h2, h4 5 [1] (by decide)⟩

/-- Claim C10: `notify` — also for frames whose server identity is known —
leaves the local-to-server map literally unchanged and every lookup in the
local-to-record map unchanged: the record it temporarily removes is always
reinserted under the same Local Identity, so its only effect is publishing
the payload into that record's channel. -/
theorem notify_preserves_maps (m : SubscriptionManager) (hm : Reachable m)
    (n : EthNotification) :
    (m.notify n).local_to_server = m.local_to_server ∧
    ∀ k, lookupSub (m.notify n).local_to_sub k = lookupSub m.local_to_sub k := by
  obtain ⟨hkey, -, -, -, -⟩ := reachable_wf hm
  exact ⟨notify_local_to_server m n, fun k => notify_lookupSub hkey n k⟩

theorem notify_preserves_maps_witness :
    (sampleManager.notify ⟨5, 11⟩).local_to_server
      = sampleManager.local_to_server ∧
    lookupSub (sampleManager.notify ⟨5, 11⟩).local_to_sub [1]
      = lookupSub sampleManager.local_to_sub [1] := by
  obtain ⟨h1, h2⟩ := notify_preserves_maps sampleManager
    reachable_sampleManager ⟨5, 11⟩
  exact ⟨h1, h2 [1]⟩


end Alloy
